import Mathlib

/-!
Verification development for the OneLake migration scripts.

This file gives a shallow embedding of the batch transfer engine of
`onelake_migrator_production.py` (progress store, batched upload loop with
per-batch checkpointing, Create/Append/Flush upload sequence), together with
the progress-load/save variants of `src/fabric/onelake_migrator_turbo_fixed.py`
and `onelake_migrator_auto_refresh.py`, the error classifiers of
`src/monitoring/log_analyzer.py` and `src/monitoring/dashboard_monitor.py`,
and the progress-file cleanup of `src/sharepoint/dll_pdf_fabric_turbo.py`.

Network I/O and the local file system are modelled by an explicit
environment (`Env`): the local file system is a partial map from paths to
byte lists, and the HTTP layer is an oracle assigning a status code and an
error body to each request.  An `asyncio.gather(..., return_exceptions=True)`
task that raises is modelled by the `raises` component of the environment.
-/

namespace OneLakeMig

/-! ## Configuration (class Config of onelake_migrator_production.py) -/

def ONELAKE_BASE_URL : String := "https://onelake.dfs.fabric.microsoft.com"

def WORKSPACE_ID : String := "abc64232-25a2-499d-90ae-9fe5939ae437"

def LAKEHOUSE_ID : String := "a622b04f-1094-4f9b-86fd-5105f4778f76"

def BATCH_SIZE : Nat := 100

def PROGRESS_FILE : String := "migration_progress_production.json"

/-! ## Progress store (load_progress initial dict, lines 84-94) -/

/-- One value of the `completed_files` dict:
`{"status": "completed", "size": ..., "timestamp": ..., "batch": ...}`. -/
structure CompletionRecord where
  status : String
  size : Nat
  timestamp : Nat
  batch : Nat
deriving DecidableEq

/-- One entry of `failed_files_list`:
`{"path": ..., "error": ..., "timestamp": ..., "batch": ...}`.
`path` is `Option String` because the "Missing path information" result can
carry `None` as its path. -/
structure FailureRecord where
  path : Option String
  error : String
  timestamp : Nat
  batch : Nat
deriving DecidableEq

/-- The persisted progress dict of `onelake_migrator_production.py`.
The `completed_files` Python dict is embedded as an association list in
insertion order (Python dicts preserve insertion order). -/
structure Progress where
  total_files : Nat
  uploaded_files : Nat
  failed_files : Nat
  skipped_files : Nat
  completed_files : List (String × CompletionRecord)
  failed_files_list : List FailureRecord
  start_time : Option Nat
  last_update : Option Nat
  current_batch : Nat
deriving DecidableEq

/-- The fresh progress structure returned by `load_progress` when no
progress file exists (lines 84-94). -/
def freshProgress : Progress :=
  { total_files := 0, uploaded_files := 0, failed_files := 0, skipped_files := 0
    completed_files := [], failed_files_list := []
    start_time := none, last_update := none, current_batch := 0 }

/-- Python dict membership test (`relative_path in self.progress["completed_files"]`). -/
def dictMem (c : List (String × CompletionRecord)) (k : String) : Bool :=
  c.any (fun e => e.1 == k)

/-- Python dict assignment `d[k] = v`: update in place if the key is present,
append otherwise (insertion order is preserved). -/
def dictInsert (c : List (String × CompletionRecord)) (k : String) (v : CompletionRecord) :
    List (String × CompletionRecord) :=
  match c with
  | [] => [(k, v)]
  | e :: rest => if e.1 = k then (k, v) :: rest else e :: dictInsert rest k v

/-! ## File cache entries (`file_info` dicts) -/

/-- One entry of the file cache consumed by `upload_file_async`:
`file_info.get('path')`, `file_info.get('relative_path')`,
`file_info.get('size_bytes', 0)`.  Missing keys are `none`. -/
structure FileInfo where
  path : Option String
  relative_path : Option String
  size_bytes : Nat
deriving DecidableEq

/-! ## OneLake URL construction (build_onelake_url, lines 120-128) -/

/-- Hex digit used by percent-encoding. -/
def hexDigit (n : Nat) : Char :=
  if n < 10 then Char.ofNat (48 + n) else Char.ofNat (55 + n)

/-- `urllib.parse.quote` for one character with `safe='/'` (modelled at the
code-point level for ASCII paths): unreserved characters and the slash are
kept, everything else becomes `%HH`. -/
def quoteChar (c : Char) : List Char :=
  if c.isAlphanum || c = ('/') || c = ('_') || c = ('.') || c = ('-') || c = ('~') then [c]
  else [('%'), hexDigit (c.toNat / 16 % 16), hexDigit (c.toNat % 16)]

/-- Python `str.strip('/')` on a character list. -/
def stripSlashes (s : List Char) : List Char :=
  ((s.dropWhile (fun c => c = ('/'))).reverse.dropWhile (fun c => c = ('/'))).reverse

/-- `build_onelake_url`: replace backslashes, strip slashes, percent-encode,
then prepend the workspace/lakehouse prefix (lines 120-128). -/
def build_onelake_url (relative_path : String) : String :=
  let clean_path := stripSlashes (relative_path.data.map (fun c => if c = ('\\') then ('/') else c))
  let encoded_path := String.mk ((clean_path.map quoteChar).flatten)
  ONELAKE_BASE_URL ++ ("/") ++ WORKSPACE_ID ++ ("/") ++ LAKEHOUSE_ID ++ ("/Files/") ++ encoded_path

/-! ## HTTP requests and the environment -/

/-- The three OneLake requests issued by the validated Create-Append-Flush
pattern.  Each carries its full URL; the append request also carries the
uploaded bytes. -/
inductive Request where
  | create (url : String)
  | append (url : String) (data : List Nat)
  | flush (url : String)
deriving DecidableEq

/-- The external world of one run: token acquisition, the local file system,
the OneLake HTTP responses, and which upload tasks raise an exception that
escapes to `asyncio.gather` (the tasks' results are otherwise dicts because
`upload_file_async` catches its own exceptions). -/
structure Env where
  tokenOk : Bool
  localFs : String → Option (List Nat)
  status : Request → Nat
  errText : Request → String
  raises : FileInfo → Option String

/-! ## upload_file_async (lines 145-206) -/

/-- The Python result dict of one upload:
`{"success": True, "path": ..., "size": ..., "skipped": ...}` or
`{"success": False, "path": ..., "error": ...}`. -/
inductive UploadDict where
  | ok (path : String) (size : Nat) (skipped : Bool)
  | err (path : Option String) (error : String)
deriving DecidableEq

/-- `upload_file_async` (lines 145-206).  The only migrator state it reads is
`self.progress["completed_files"]`, passed here as `completed_files`.
Returns the result dict together with the list of HTTP requests issued,
in order.  The `raise Exception(...)` statements for bad statuses are caught
by the function's own `except` clause and therefore appear as `err` results
carrying `str(e)`. -/
def upload_file_async (env : Env) (completed_files : List (String × CompletionRecord))
    (fi : FileInfo) : UploadDict × List Request :=
  match fi.path, fi.relative_path with
  | some local_path, some relative_path =>
    if dictMem completed_files relative_path then
      (.ok relative_path fi.size_bytes true, [])
    else
      match env.localFs local_path with
      | none => (.err (some relative_path) (("Local file not found: ") ++ local_path), [])
      | some file_content =>
        let file_size := file_content.length
        let base_url := build_onelake_url relative_path
        let create_url := base_url ++ ("?resource=file")
        let sc := env.status (.create create_url)
        if sc = 200 ∨ sc = 201 then
          if file_size > 0 then
            let append_url := base_url ++ ("?action=append&position=0")
            let sa := env.status (.append append_url file_content)
            if sa = 200 ∨ sa = 202 then
              let flush_url := base_url ++ ("?action=flush&position=") ++ toString file_size
              let sf := env.status (.flush flush_url)
              if sf = 200 ∨ sf = 201 then
                (.ok relative_path file_size false,
                 [.create create_url, .append append_url file_content, .flush flush_url])
              else
                (.err (some relative_path)
                   (("Flush failed: HTTP ") ++ toString sf ++ (" - ") ++ env.errText (.flush flush_url)),
                 [.create create_url, .append append_url file_content, .flush flush_url])
            else
              (.err (some relative_path)
                 (("Append failed: HTTP ") ++ toString sa ++ (" - ") ++ env.errText (.append append_url file_content)),
               [.create create_url, .append append_url file_content])
          else
            (.ok relative_path file_size false, [.create create_url])
        else
          (.err (some relative_path)
             (("Create failed: HTTP ") ++ toString sc ++ (" - ") ++ env.errText (.create create_url)),
           [.create create_url])
  | _, _ => (.err fi.relative_path ("Missing path information"), [])

/-! ## upload_batch (lines 208-220) -/

/-- One element of the list returned by
`asyncio.gather(*tasks, return_exceptions=True)`: either the task's result
dict or the exception object it raised. -/
inductive GatherResult where
  | dict (d : UploadDict)
  | exc (msg : String)
deriving DecidableEq

/-- The gathered outcome of one task of a batch: the exception if the task
raises, otherwise the dict returned by `upload_file_async`. -/
def gatherItem (env : Env) (completed_files : List (String × CompletionRecord))
    (fi : FileInfo) : GatherResult :=
  match env.raises fi with
  | some msg => .exc msg
  | none => .dict (upload_file_async env completed_files fi).1

/-- `upload_batch` (lines 208-220): all tasks of one batch run against the
batch-start progress (`self.progress` is only mutated after the gather). -/
def upload_batch (env : Env) (completed_files : List (String × CompletionRecord))
    (batch : List FileInfo) : List GatherResult :=
  batch.map (gatherItem env completed_files)

/-! ## Result application in migrate_files (lines 270-298) -/

/-- The per-result bookkeeping of `migrate_files` (lines 270-298): dict
results update counters, the `completed_files` dict and `failed_files_list`;
a bare exception from the gather only increments `failed_files` and is
logged (`BATCH EXCEPTION`), recording nothing else. -/
def applyResult (batch_num now : Nat) (p : Progress) (r : GatherResult) : Progress :=
  match r with
  | .dict (.ok path size skipped) =>
    if skipped then
      { p with skipped_files := p.skipped_files + 1 }
    else
      { p with uploaded_files := p.uploaded_files + 1
               completed_files := dictInsert p.completed_files path
                 { status := ("completed"), size := size, timestamp := now, batch := batch_num + 1 } }
  | .dict (.err path error) =>
    { p with failed_files := p.failed_files + 1
             failed_files_list := p.failed_files_list ++
               [{ path := path, error := error, timestamp := now, batch := batch_num + 1 }] }
  | .exc _ => { p with failed_files := p.failed_files + 1 }

/-- Processing of one batch: gather all task results against the batch-start
progress, then fold the bookkeeping of lines 270-298 over them. -/
def runBatch (env : Env) (now batch_num : Nat) (p : Progress) (batch : List FileInfo) : Progress :=
  (upload_batch env p.completed_files batch).foldl (applyResult batch_num now) p

/-! ## Batch slicing of migrate_files (lines 243-253) -/

/-- `total_batches = (len(files) + Config.BATCH_SIZE - 1) // Config.BATCH_SIZE`
(line 244), with the batch size as a parameter. -/
def totalBatches (n bs : Nat) : Nat := (n + bs - 1) / bs

/-- The index range `range(start_batch, end_batch)` of line 250 where
`end_batch = min(total_batches, start_batch + max_batches)` when
`max_batches` is given and `total_batches` otherwise (line 245). -/
def batchIndices (n bs start_batch : Nat) (max_batches : Option Nat) : List Nat :=
  let total := totalBatches n bs
  let endB := match max_batches with
    | some m => min total (start_batch + m)
    | none => total
  List.range' start_batch (endB - start_batch)

/-- `batch = files[start_idx:end_idx]` with `start_idx = batch_num * BATCH_SIZE`
and `end_idx = min(start_idx + BATCH_SIZE, len(files))` (lines 251-253). -/
def batchAt (files : List FileInfo) (bs i : Nat) : List FileInfo :=
  (files.drop (i * bs)).take bs

/-- The sequence of batches a `migrate_files` call processes: the ORIGINAL
cache list is sliced positionally; already-completed items are not removed
before batching (they are skipped inside `upload_file_async`). -/
def migrateBatches (files : List FileInfo) (bs start_batch : Nat)
    (max_batches : Option Nat) : List (List FileInfo) :=
  (batchIndices files.length bs start_batch max_batches).map (batchAt files bs)

/-! ## migrate_files (lines 222-318) -/

/-- One iteration of the batch loop (lines 250-314): set `current_batch`,
process the batch, then `save_progress` (which stamps `last_update`). -/
def batchStep (env : Env) (now bs : Nat) (files : List FileInfo) (p : Progress) (i : Nat) :
    Progress :=
  let p1 := { p with current_batch := i + 1 }
  let q := runBatch env now i p1 (batchAt files bs i)
  { q with last_update := some now }

/-- `migrate_files` (lines 222-318).  Returns the Python return value
(`False` on missing token or empty cache, `True` otherwise), the final
in-memory progress, and the list of saved checkpoints (the progress written
by each per-batch `save_progress` call, line 301).  The file cache and the
loaded progress are parameters; wall-clock time is abstracted by `now`. -/
def migrate_files (env : Env) (bs now : Nat) (p0 : Progress) (files : List FileInfo)
    (start_batch : Nat) (max_batches : Option Nat) : Bool × Progress × List Progress :=
  if env.tokenOk = false then (false, p0, [])
  else if files.isEmpty then (false, p0, [])
  else
    let p := { p0 with total_files := files.length, start_time := some now }
    let res := (batchIndices files.length bs start_batch max_batches).foldl
      (fun (st : Progress × List Progress) i =>
        let q := batchStep env now bs files st.1 i
        (q, st.2 ++ [q]))
      (p, [])
    (true, res.1, res.2)

/-! ## main (lines 345-367) -/

/-- The parsed argparse namespace of `main`. -/
structure Args where
  start_batch : Nat
  max_batches : Option Nat
  test_run : Bool
deriving DecidableEq

/-- `main` (lines 345-367): runs the migration and logs the outcome.  It
never calls `sys.exit`, so the process exit status is 0 on every path that
does not raise; the second component is the `success` flag that is only
logged. -/
def main_run (env : Env) (bs now : Nat) (p0 : Progress) (files : List FileInfo)
    (args : Args) : Nat × Bool :=
  let success :=
    if args.test_run then (migrate_files env bs now p0 files 0 (some 5)).1
    else (migrate_files env bs now p0 files args.start_batch args.max_batches).1
  (0, success)

/-! ## load_progress of onelake_migrator_production.py (lines 79-94)

The persisted progress file is modelled as `Option (JsonFile α)`: `none` when
`os.path.exists` is false, `some (.valid a)` when the file parses to `a`, and
`some (.malformed e)` when `json.load` raises a decoding error `e`. -/

/-- Content of a JSON file on disk: either it parses, or `json.load` raises. -/
inductive JsonFile (α : Type) where
  | valid (content : α)
  | malformed (err : String)
deriving DecidableEq

/-- `json.load(f)`: the parsed value, or the raised decoding error. -/
def json_load {α : Type} : JsonFile α → Except String α
  | .valid a => .ok a
  | .malformed e => .error e

/-- `load_progress` (lines 79-94): if the file exists it is handed straight to
`json.load` with no exception handler, so a malformed file propagates the
decoding error; only an absent file yields the fresh structure. -/
def load_progress (fs : Option (JsonFile Progress)) : Except String Progress :=
  match fs with
  | some f => json_load f
  | none => .ok freshProgress

/-! ## load_progress of src/fabric/onelake_migrator_turbo_fixed.py (lines 330-351) -/

/-- The progress dict of `onelake_migrator_turbo_fixed.py` (`init_progress`):
`{"completed_files": [], "failed_files": [], "stats": {}}`. -/
structure TFProgress where
  completed_files : List String
  failed_files : List String
  stats : List (String × String)
deriving DecidableEq

/-- `init_progress` (lines 330-336). -/
def init_progress : TFProgress :=
  { completed_files := [], failed_files := [], stats := [] }

/-- `load_progress` of the turbo_fixed variant (lines 338-346): the
`try/except` around `open`/`json.load` swallows every error, so an absent or
malformed file both yield `init_progress`; this variant never raises. -/
def tf_load_progress (fs : Option (JsonFile TFProgress)) : TFProgress :=
  match fs with
  | some f =>
    match json_load f with
    | .ok p => p
    | .error _ => init_progress
  | none => init_progress

/-! ## save_progress (production lines 96-100, auto_refresh lines 157-163) -/

/-- A file-system side effect performed by the scripts. -/
inductive FsOp where
  | write (path : String) (content : String)
  | rename (src : String) (dst : String)
  | delete (path : String)
deriving DecidableEq

def FsOp.isRename : FsOp → Bool
  | .rename _ _ => true
  | _ => false

def FsOp.isDelete : FsOp → Bool
  | .delete _ => true
  | _ => false

def FsOp.isWriteTo (target : String) : FsOp → Bool
  | .write p _ => p == target
  | _ => false

/-- `json.dumps` of the progress dict (the exact JSON text is irrelevant to
the claims; field order follows the dict of lines 84-94). -/
def serializeProgress (p : Progress) : String :=
  ("\x7b\"total_files\": ") ++ toString p.total_files ++
  (", \"uploaded_files\": ") ++ toString p.uploaded_files ++
  (", \"failed_files\": ") ++ toString p.failed_files ++
  (", \"skipped_files\": ") ++ toString p.skipped_files ++
  (", \"completed_files\": <") ++ toString p.completed_files.length ++
  (" entries>, \"failed_files_list\": <") ++ toString p.failed_files_list.length ++
  (" entries>\x7d")

/-- The file-system operations performed by `save_progress` of
`onelake_migrator_production.py` (lines 96-100): a single direct
`open(Config.PROGRESS_FILE, 'w')` + `json.dump` — one in-place write to the
target path, no temporary file and no rename. -/
def save_progress_ops (p : Progress) : List FsOp :=
  [FsOp.write PROGRESS_FILE (serializeProgress p)]

/-- Outcome of a Python call: normal return or a raised exception. -/
inductive PyOutcome (α : Type) where
  | ret (a : α)
  | exn (msg : String)
deriving DecidableEq

/-- `save_progress` of `onelake_migrator_production.py` (lines 96-100) has no
exception handler: a failing write propagates the exception to the caller. -/
def save_progress_production (writeErr : Option String) : PyOutcome Unit :=
  match writeErr with
  | some e => .exn e
  | none => .ret ()

/-- `save_progress` of `onelake_migrator_auto_refresh.py` (lines 156-162):
the `try/except` logs `WARNING: Failed to save progress` and returns
normally, so a save failure never raises.  The second component is the
logged warning, if any. -/
def save_progress_auto_refresh (writeErr : Option String) : PyOutcome Unit × Option String :=
  match writeErr with
  | some e => (.ret (), some (("WARNING: Failed to save progress: ") ++ e))
  | none => (.ret (), none)

/-! ## Error classifiers -/

/-- Does `needle` occur at the head of `l`? (helper for Python `in`). -/
def startsWithChars : List Char → List Char → Bool
  | [], _ => true
  | _ :: _, [] => false
  | a :: as, b :: bs => a == b && startsWithChars as bs

/-- Does `needle` occur anywhere in `l`? (helper for Python `in`). -/
def containsChars (needle : List Char) : List Char → Bool
  | [] => needle.isEmpty
  | b :: bs => startsWithChars needle (b :: bs) || containsChars needle bs

/-- Python `str.lower()` modelled at the code-point level (ASCII). -/
def toLowerStr (s : String) : String :=
  String.mk (s.data.map Char.toLower)

/-- Python substring test `needle in hay`. -/
def strContains (hay needle : String) : Bool :=
  containsChars needle.data hay.data

/-- `classify_error` of `src/monitoring/log_analyzer.py` (lines 281-298):
substring checks in the fixed order authentication, not-found, timeout,
connection, rate-limit, server-error, falling back to `"Other"`. -/
def classify_error (error_msg : String) : String :=
  let error_msg_lower := toLowerStr error_msg
  if strContains error_msg ("401") || strContains error_msg_lower ("unauthorized") then ("Authentication")
  else if strContains error_msg ("404") || strContains error_msg_lower ("not found") then ("File Not Found")
  else if strContains error_msg_lower ("timeout") then ("Timeout")
  else if strContains error_msg_lower ("connection") then ("Connection")
  else if strContains error_msg ("429") then ("Rate Limit")
  else if strContains error_msg ("500") || strContains error_msg ("503") then ("Server Error")
  else ("Other")

/-- `classify_error` of `src/monitoring/dashboard_monitor.py` (lines 123-142):
same shape but with a `"Permission"` check inserted between the connection
and rate-limit checks, `"timed out"` added to the timeout check, `"rate
limit"` added to the rate-limit check and `"502"` added to the server-error
check. -/
def classify_error_dashboard (error_msg : String) : String :=
  let error_msg_lower := toLowerStr error_msg
  if strContains error_msg ("401") || strContains error_msg_lower ("unauthorized") then ("Authentication")
  else if strContains error_msg ("404") || strContains error_msg_lower ("not found") then ("File Not Found")
  else if strContains error_msg_lower ("timeout") || strContains error_msg_lower ("timed out") then ("Timeout")
  else if strContains error_msg_lower ("connection") then ("Connection")
  else if strContains error_msg_lower ("permission") || strContains error_msg_lower ("access") then ("Permission")
  else if strContains error_msg ("429") || strContains error_msg_lower ("rate limit") then ("Rate Limit")
  else if strContains error_msg ("500") || strContains error_msg ("503") || strContains error_msg ("502") then ("Server Error")
  else ("Other")

/-! ## Progress-file cleanup of src/sharepoint/dll_pdf_fabric_turbo.py -/

/-- End-of-run cleanup of `download_all_files_turbo` (lines 486-489):
`if progress_file.exists() and len(results["failed"]) == 0:
progress_file.unlink()`.  Input: whether the progress file exists and the
length of the run's failed list; output: whether the file still exists
afterwards, and whether `unlink` was performed. -/
def turbo_cleanup (progress_file_present : Bool) (failed_count : Nat) : Bool × Bool :=
  if progress_file_present && failed_count == 0 then (false, true)
  else (progress_file_present, false)

/-- `clear_cache` (lines 116-133): unlinks the cache file and the progress
file when they exist, and reports which were removed.  This is invoked only
on explicit operator request.  Input: existence flags of (cache file,
progress file); output: existence flags afterwards plus the removed names. -/
def clear_cache (cache_present progress_present : Bool) : (Bool × Bool) × List String :=
  ((false, false),
   (if cache_present then [("file_list_cache.json")] else []) ++
   (if progress_present then [("download_progress.json")] else []))

/-! ## Definitions modelled from the spec (for refinement comparisons) -/

/-- Modelled from the spec: `is_complete(store, key)` — "O(1) membership test
against `completed` ... used to filter the work list before each run". -/
def spec_is_complete (completed : List (String × CompletionRecord)) (fi : FileInfo) : Bool :=
  match fi.relative_path with
  | some k => dictMem completed k
  | none => false

/-- Chunking helper with explicit fuel (the fuel is the list length, which
suffices for any positive chunk size). -/
def chunkGo (bs : Nat) : Nat → List FileInfo → List (List FileInfo)
  | 0, _ => []
  | _, [] => []
  | Nat.succ fuel, l => l.take bs :: chunkGo bs fuel (l.drop bs)

/-- Modelled from the spec: "Partition `pending` into sequential batches of
`batch_size` (last batch may be smaller).  Batch order is the order of
`pending`, which is itself the order of the original `items` list with
completed items removed." -/
def specPendingBatches (items : List FileInfo) (completed : List (String × CompletionRecord))
    (bs : Nat) : List (List FileInfo) :=
  let pending := items.filter (fun fi => !(spec_is_complete completed fi))
  chunkGo bs pending.length pending

/-! ## Concrete environments and items used by counterexamples and witnesses -/

/-- A cache entry with a 3-byte local file. -/
def fiA : FileInfo :=
  { path := some ("local/a.txt"), relative_path := some ("docs/a.txt"), size_bytes := 3 }

/-- A cache entry with an empty (0-byte) local file. -/
def fiB : FileInfo :=
  { path := some ("local/b.txt"), relative_path := some ("docs/b.txt"), size_bytes := 0 }

/-- A server that accepts every request with the expected success codes. -/
def okStatus : Request → Nat
  | .create _ => 201
  | .append _ _ => 202
  | .flush _ => 200

/-- A fully healthy environment for `fiA`/`fiB`. -/
def envOK : Env :=
  { tokenOk := true
    localFs := fun p =>
      if p = ("local/a.txt") then some [1, 2, 3]
      else if p = ("local/b.txt") then some []
      else none
    status := okStatus
    errText := fun _ => ("")
    raises := fun _ => none }

/-- The healthy environment with one upload task (`fiB`) raising an
exception that escapes to `asyncio.gather`. -/
def envRaise : Env :=
  { envOK with raises := fun fi => if fi.relative_path = some ("docs/b.txt") then some ("boom") else none }

/-- A server answering 500 Internal Server Error to every request. -/
def env500 : Env :=
  { envOK with status := fun _ => 500, errText := fun _ => ("Internal Server Error") }

/-- Final progress of a first full run over `[fiA]` from a fresh store. -/
def runOnceP : Progress := (migrate_files envOK 100 7 freshProgress [fiA] 0 none).2.1

/-- Final progress of re-running over `[fiA]` with the loaded progress of the
first run. -/
def runTwiceP : Progress := (migrate_files envOK 100 7 runOnceP [fiA] 0 none).2.1

/-- Final progress of a run over `[fiB, fiA]` in which the task for `fiB`
raises "boom" and `fiA` uploads fine. -/
def c4Final : Progress := (migrate_files envRaise 100 7 freshProgress [fiB, fiA] 0 none).2.1

/-- Five one-byte cache entries keyed a..e, all uploadable. -/
def fv (s : String) : FileInfo :=
  { path := some s, relative_path := some s, size_bytes := 1 }

def itemsC6 : List FileInfo := [fv ("a"), fv ("b"), fv ("c"), fv ("d"), fv ("e")]

/-- A loaded progress store in which item "a" is already completed. -/
def completedA : List (String × CompletionRecord) :=
  [(("a"), { status := ("completed"), size := 1, timestamp := 0, batch := 1 })]

/-! ## The completed-map evolution of a run (proof infrastructure)

`applyResult` changes `completed_files` in a way that depends only on the
result and the current `completed_files`; the following shadow definitions
capture that evolution and are proved equal to the run's. -/

/-- The effect of one gathered result on the `completed_files` dict alone. -/
def applyCompleted (batch_num now : Nat) (c : List (String × CompletionRecord))
    (r : GatherResult) : List (String × CompletionRecord) :=
  match r with
  | .dict (.ok path size skipped) =>
    if skipped then c
    else dictInsert c path
      { status := ("completed"), size := size, timestamp := now, batch := batch_num + 1 }
  | .dict (.err _ _) => c
  | .exc _ => c

/-- The `completed_files` evolution of one batch. -/
def cRunBatch (env : Env) (now batch_num : Nat) (c : List (String × CompletionRecord))
    (batch : List FileInfo) : List (String × CompletionRecord) :=
  (upload_batch env c batch).foldl (applyCompleted batch_num now) c

/-- The `completed_files` evolution of the batch at index `i`. -/
def cBatchStep (env : Env) (now bs : Nat) (files : List FileInfo)
    (c : List (String × CompletionRecord)) (i : Nat) : List (String × CompletionRecord) :=
  cRunBatch env now i c (batchAt files bs i)

/-- The `completed_files` evolution across a list of batch indices. -/
def cFold (env : Env) (now bs : Nat) (files : List FileInfo)
    (c : List (String × CompletionRecord)) (idxs : List Nat) :
    List (String × CompletionRecord) :=
  idxs.foldl (cBatchStep env now bs files) c

/-- The intrinsic outcome of attempting `fi`'s transfer (ignoring the
completed-check): `some (key, size)` iff the task does not raise, both path
fields are present, the local file is readable and every issued request gets
a success status.  This is exactly the branch structure of
`upload_file_async` minus the resume check, and it does not depend on the
progress store. -/
def attemptSuccess (env : Env) (fi : FileInfo) : Option (String × Nat) :=
  match env.raises fi with
  | some _ => none
  | none =>
    match fi.path, fi.relative_path with
    | some local_path, some relative_path =>
      match env.localFs local_path with
      | none => none
      | some file_content =>
        let base_url := build_onelake_url relative_path
        let sc := env.status (.create (base_url ++ ("?resource=file")))
        if sc = 200 ∨ sc = 201 then
          if file_content.length > 0 then
            let sa := env.status (.append (base_url ++ ("?action=append&position=0")) file_content)
            if sa = 200 ∨ sa = 202 then
              let sf := env.status
                (.flush (base_url ++ ("?action=flush&position=") ++ toString file_content.length))
              if sf = 200 ∨ sf = 201 then some (relative_path, file_content.length) else none
            else none
          else some (relative_path, file_content.length)
        else none
    | _, _ => none

/-- The quantity constrained by the conservation invariant:
`len(completed) + len(failed) + skipped`. -/
def progressSum (p : Progress) : Nat :=
  p.completed_files.length + p.failed_files_list.length + p.skipped_files

/-- The keys (`relative_path` values) present in a cache-entry list. -/
def someKeys (l : List FileInfo) : List String :=
  l.filterMap (fun fi => fi.relative_path)

/-! # Theorems

First the helper lemmas shared across the claim theorems, then one theorem
per claim (with its counterexample and witness where applicable). -/

/-! ## Basic dict lemmas -/

theorem dictMem_nil (k : String) : dictMem [] k = false := rfl

theorem dictMem_cons (e : String × CompletionRecord) (rest : List (String × CompletionRecord))
    (k : String) : dictMem (e :: rest) k = (e.1 == k || dictMem rest k) := rfl

theorem dictMem_dictInsert_self (c : List (String × CompletionRecord)) (k : String)
    (v : CompletionRecord) : dictMem (dictInsert c k v) k = true := by
  induction c with
  | nil => simp [dictInsert, dictMem_cons, dictMem_nil]
  | cons e rest ih =>
    by_cases he : e.1 = k
    · rw [dictInsert, if_pos he, dictMem_cons]
      simp
    · rw [dictInsert, if_neg he, dictMem_cons, ih]
      simp

theorem dictMem_dictInsert_of_mem (c : List (String × CompletionRecord)) (k k0 : String)
    (v : CompletionRecord) (h : dictMem c k0 = true) :
    dictMem (dictInsert c k v) k0 = true := by
  induction c with
  | nil => rw [dictMem_nil] at h; exact absurd h (by simp)
  | cons e rest ih =>
    rw [dictMem_cons] at h
    by_cases he : e.1 = k
    · rw [dictInsert, if_pos he, dictMem_cons, ← he]
      exact h
    · rw [dictInsert, if_neg he, dictMem_cons]
      cases hb : (e.1 == k0) with
      | true => simp
      | false =>
        rw [hb] at h
        simp only [Bool.false_or] at h ⊢
        exact ih h

theorem dictMem_dictInsert_inv (c : List (String × CompletionRecord)) (k k0 : String)
    (v : CompletionRecord) (h : dictMem (dictInsert c k v) k0 = true) :
    k0 = k ∨ dictMem c k0 = true := by
  induction c with
  | nil =>
    rw [dictInsert, dictMem_cons, dictMem_nil] at h
    simp only [Bool.or_false, beq_iff_eq] at h
    exact Or.inl h.symm
  | cons e rest ih =>
    by_cases he : e.1 = k
    · rw [dictInsert, if_pos he, dictMem_cons] at h
      rw [dictMem_cons]
      cases hb : ((k : String) == k0) with
      | true => exact Or.inl (eq_of_beq hb).symm
      | false =>
        rw [hb, Bool.false_or] at h
        rw [h]
        simp
    · rw [dictInsert, if_neg he, dictMem_cons] at h
      rw [dictMem_cons]
      cases hb : (e.1 == k0) with
      | true => exact Or.inr (by simp [hb])
      | false =>
        rw [hb, Bool.false_or] at h
        rcases ih h with h1 | h1
        · exact Or.inl h1
        · exact Or.inr (by simp [hb, h1])

theorem length_dictInsert_not_mem (c : List (String × CompletionRecord)) (k : String)
    (v : CompletionRecord) (h : dictMem c k = false) :
    (dictInsert c k v).length = c.length + 1 := by
  induction c with
  | nil => rfl
  | cons e rest ih =>
    rw [dictMem_cons, Bool.or_eq_false_iff] at h
    have he : ¬ e.1 = k := by
      intro hk
      rw [hk] at h
      simp at h
    rw [dictInsert, if_neg he, List.length_cons, List.length_cons, ih h.2]

/-! ## The completed-map shadow is faithful -/

theorem applyResult_completed (i now : Nat) (p : Progress) (r : GatherResult) :
    (applyResult i now p r).completed_files = applyCompleted i now p.completed_files r := by
  cases r with
  | dict d =>
    cases d with
    | ok path size skipped => cases skipped <;> rfl
    | err path e => rfl
  | exc m => rfl

theorem foldl_applyResult_completed (i now : Nat) (rs : List GatherResult) (p : Progress) :
    (rs.foldl (applyResult i now) p).completed_files =
      rs.foldl (applyCompleted i now) p.completed_files := by
  induction rs generalizing p with
  | nil => rfl
  | cons r rest ih =>
    simp only [List.foldl_cons]
    rw [ih, applyResult_completed]

theorem runBatch_completed (env : Env) (now i : Nat) (p : Progress) (batch : List FileInfo) :
    (runBatch env now i p batch).completed_files =
      cRunBatch env now i p.completed_files batch := by
  unfold runBatch cRunBatch
  exact foldl_applyResult_completed i now _ p

theorem batchStep_completed (env : Env) (now bs : Nat) (files : List FileInfo) (p : Progress)
    (i : Nat) :
    (batchStep env now bs files p i).completed_files =
      cBatchStep env now bs files p.completed_files i := by
  unfold batchStep cBatchStep
  rw [runBatch_completed]

theorem migrate_foldPair_completed (env : Env) (now bs : Nat) (files : List FileInfo)
    (idxs : List Nat) (p : Progress) (acc : List Progress) :
    ((idxs.foldl (fun (st : Progress × List Progress) i =>
        let q := batchStep env now bs files st.1 i
        (q, st.2 ++ [q])) (p, acc)).1).completed_files =
      cFold env now bs files p.completed_files idxs := by
  induction idxs generalizing p acc with
  | nil => rfl
  | cons i is ih =>
    simp only [List.foldl_cons]
    unfold cFold
    simp only [List.foldl_cons]
    rw [ih, ← batchStep_completed]
    rfl

theorem migrate_completed (env : Env) (bs now : Nat) (p0 : Progress) (files : List FileInfo)
    (start_batch : Nat) (max_batches : Option Nat)
    (htok : env.tokenOk = true) (hne : files ≠ []) :
    (migrate_files env bs now p0 files start_batch max_batches).2.1.completed_files =
      cFold env now bs files p0.completed_files
        (batchIndices files.length bs start_batch max_batches) := by
  unfold migrate_files
  rw [htok]
  simp only [Bool.true_eq_false, if_false, List.isEmpty_eq_true]
  rw [if_neg hne]
  exact migrate_foldPair_completed env now bs files _ _ []

/-! ## Monotonicity of the completed map during a run -/

theorem dictMem_applyCompleted_of_mem (i now : Nat) (c : List (String × CompletionRecord))
    (r : GatherResult) (k : String) (h : dictMem c k = true) :
    dictMem (applyCompleted i now c r) k = true := by
  cases r with
  | dict d =>
    cases d with
    | ok path size skipped =>
      cases skipped with
      | true => exact h
      | false => exact dictMem_dictInsert_of_mem c path k _ h
    | err path e => exact h
  | exc m => exact h

theorem dictMem_foldl_applyCompleted_of_mem (i now : Nat) (rs : List GatherResult)
    (c : List (String × CompletionRecord)) (k : String) (h : dictMem c k = true) :
    dictMem (rs.foldl (applyCompleted i now) c) k = true := by
  induction rs generalizing c with
  | nil => exact h
  | cons r rest ih =>
    simp only [List.foldl_cons]
    exact ih _ (dictMem_applyCompleted_of_mem i now c r k h)

theorem dictMem_cRunBatch_of_mem (env : Env) (now i : Nat)
    (c : List (String × CompletionRecord)) (batch : List FileInfo) (k : String)
    (h : dictMem c k = true) : dictMem (cRunBatch env now i c batch) k = true :=
  dictMem_foldl_applyCompleted_of_mem i now _ c k h

theorem dictMem_cFold_of_mem (env : Env) (now bs : Nat) (files : List FileInfo)
    (idxs : List Nat) (c : List (String × CompletionRecord)) (k : String)
    (h : dictMem c k = true) : dictMem (cFold env now bs files c idxs) k = true := by
  induction idxs generalizing c with
  | nil => exact h
  | cons i is ih =>
    unfold cFold
    simp only [List.foldl_cons]
    exact ih _ (dictMem_cRunBatch_of_mem env now i c _ k h)

theorem dictMem_foldl_of_ok_mem (i now : Nat) (rs : List GatherResult)
    (c : List (String × CompletionRecord)) (k : String) (sz : Nat)
    (h : GatherResult.dict (.ok k sz false) ∈ rs) :
    dictMem (rs.foldl (applyCompleted i now) c) k = true := by
  induction rs generalizing c with
  | nil => exact absurd h (List.not_mem_nil _)
  | cons r rest ih =>
    simp only [List.foldl_cons]
    rcases List.mem_cons.mp h with h1 | h1
    · subst h1
      exact dictMem_foldl_applyCompleted_of_mem i now rest _ k
        (dictMem_dictInsert_self c k _)
    · exact ih _ h1

/-! ## Characterization of upload results -/

theorem upload_skip (env : Env) (c : List (String × CompletionRecord)) (fi : FileInfo)
    (lp k : String) (hp : fi.path = some lp) (hr : fi.relative_path = some k)
    (hm : dictMem c k = true) :
    upload_file_async env c fi = (.ok k fi.size_bytes true, []) := by
  unfold upload_file_async
  rw [hp, hr]
  simp [hm]

theorem gatherItem_skip (env : Env) (c : List (String × CompletionRecord)) (fi : FileInfo)
    (lp k : String) (hraise : env.raises fi = none) (hp : fi.path = some lp)
    (hr : fi.relative_path = some k) (hm : dictMem c k = true) :
    gatherItem env c fi = .dict (.ok k fi.size_bytes true) := by
  unfold gatherItem
  rw [hraise, upload_skip env c fi lp k hp hr hm]

theorem upload_no_skip (env : Env) (c : List (String × CompletionRecord)) (fi : FileInfo)
    (k : String) (hr : fi.relative_path = some k) (hm : dictMem c k = false) :
    ∀ pp sz, (upload_file_async env c fi).1 ≠ .ok pp sz true := by
  intro pp sz
  unfold upload_file_async
  rw [hr]
  cases hp : fi.path with
  | none => simp
  | some lp =>
    simp only [hm, Bool.false_eq_true, if_false]
    cases hfs : env.localFs lp with
    | none => simp
    | some content =>
      simp only []
      split
      · split
        · split
          · split <;> simp
          · simp
        · simp
      · simp

theorem attemptSuccess_some_inv (env : Env) (fi : FileInfo) (k : String) (sz : Nat)
    (ha : attemptSuccess env fi = some (k, sz)) :
    env.raises fi = none ∧ fi.relative_path = some k ∧ ∃ lp, fi.path = some lp := by
  unfold attemptSuccess at ha
  cases hraise : env.raises fi with
  | some m => rw [hraise] at ha; exact absurd ha (by simp)
  | none =>
    rw [hraise] at ha
    dsimp only [] at ha
    cases hp : fi.path with
    | none =>
      rw [hp] at ha
      cases hr : fi.relative_path <;> rw [hr] at ha <;> simp at ha
    | some lp =>
      rw [hp] at ha
      cases hr : fi.relative_path with
      | none => rw [hr] at ha; simp at ha
      | some rp =>
        rw [hr] at ha
        dsimp only [] at ha
        cases hfs : env.localFs lp with
        | none => rw [hfs] at ha; simp at ha
        | some content =>
          rw [hfs] at ha
          dsimp only [] at ha
          split at ha
          · split at ha
            · split at ha
              · split at ha
                · simp only [Option.some.injEq, Prod.mk.injEq] at ha
                  exact ⟨rfl, by rw [ha.1], lp, rfl⟩
                · exact absurd ha (by simp)
              · exact absurd ha (by simp)
            · simp only [Option.some.injEq, Prod.mk.injEq] at ha
              exact ⟨rfl, by rw [ha.1], lp, rfl⟩
          · exact absurd ha (by simp)

theorem upload_of_attempt (env : Env) (c : List (String × CompletionRecord)) (fi : FileInfo)
    (k : String) (sz : Nat) (hm : dictMem c k = false)
    (ha : attemptSuccess env fi = some (k, sz)) :
    (upload_file_async env c fi).1 = .ok k sz false := by
  obtain ⟨hraise, hr, lp, hp⟩ := attemptSuccess_some_inv env fi k sz ha
  unfold attemptSuccess at ha
  rw [hraise] at ha
  dsimp only [] at ha
  rw [hp, hr] at ha
  dsimp only [] at ha
  unfold upload_file_async
  rw [hp, hr]
  dsimp only []
  rw [if_neg (show ¬ dictMem c k = true by simp [hm])]
  cases hfs : env.localFs lp with
  | none => rw [hfs] at ha; simp at ha
  | some content =>
    rw [hfs] at ha
    dsimp only [] at ha
    dsimp only []
    split at ha
    · rename_i hsc
      rw [if_pos hsc]
      split at ha
      · rename_i hlen
        rw [if_pos hlen]
        split at ha
        · rename_i hsa
          rw [if_pos hsa]
          split at ha
          · rename_i hsf
            rw [if_pos hsf]
            simp only [Option.some.injEq, Prod.mk.injEq] at ha
            rw [ha.2]
          · exact absurd ha (by simp)
        · exact absurd ha (by simp)
      · rename_i hlen
        rw [if_neg hlen]
        simp only [Option.some.injEq, Prod.mk.injEq] at ha
        rw [ha.2]
    · exact absurd ha (by simp)

theorem gatherItem_of_attempt (env : Env) (c : List (String × CompletionRecord)) (fi : FileInfo)
    (k : String) (sz : Nat) (hm : dictMem c k = false)
    (ha : attemptSuccess env fi = some (k, sz)) :
    gatherItem env c fi = .dict (.ok k sz false) := by
  obtain ⟨hraise, hr, lp, hp⟩ := attemptSuccess_some_inv env fi k sz ha
  unfold gatherItem
  rw [hraise, upload_of_attempt env c fi k sz hm ha]

theorem upload_err_of_attempt_none (env : Env) (c : List (String × CompletionRecord))
    (fi : FileInfo) (lp k : String) (hp : fi.path = some lp) (hr : fi.relative_path = some k)
    (hm : dictMem c k = false) (hraise : env.raises fi = none)
    (ha : attemptSuccess env fi = none) :
    ∃ e, (upload_file_async env c fi).1 = .err (some k) e := by
  unfold attemptSuccess at ha
  rw [hraise] at ha
  dsimp only [] at ha
  rw [hp, hr] at ha
  dsimp only [] at ha
  unfold upload_file_async
  rw [hp, hr]
  dsimp only []
  rw [if_neg (show ¬ dictMem c k = true by simp [hm])]
  cases hfs : env.localFs lp with
  | none =>
    exact ⟨_, rfl⟩
  | some content =>
    rw [hfs] at ha
    dsimp only [] at ha
    dsimp only []
    split at ha
    · rename_i hsc
      rw [if_pos hsc]
      split at ha
      · rename_i hlen
        rw [if_pos hlen]
        split at ha
        · rename_i hsa
          rw [if_pos hsa]
          split at ha
          · exact absurd ha (by simp)
          · rename_i hsf
            rw [if_neg hsf]
            exact ⟨_, rfl⟩
        · rename_i hsa
          rw [if_neg hsa]
          exact ⟨_, rfl⟩
      · exact absurd ha (by simp)
    · rename_i hsc
      rw [if_neg hsc]
      exact ⟨_, rfl⟩

theorem gatherItem_ok_false_inv (env : Env) (c : List (String × CompletionRecord))
    (fi : FileInfo) (k : String) (sz : Nat)
    (h : gatherItem env c fi = .dict (.ok k sz false)) :
    attemptSuccess env fi = some (k, sz) ∧ dictMem c k = false := by
  unfold gatherItem at h
  cases hraise : env.raises fi with
  | some m => rw [hraise] at h; exact absurd h (by simp)
  | none =>
    rw [hraise] at h
    dsimp only [] at h
    simp only [GatherResult.dict.injEq] at h
    unfold upload_file_async at h
    cases hp : fi.path with
    | none =>
      rw [hp] at h
      cases hr : fi.relative_path <;> rw [hr] at h <;> simp at h
    | some lp =>
      rw [hp] at h
      cases hr : fi.relative_path with
      | none => rw [hr] at h; simp at h
      | some rp =>
        rw [hr] at h
        dsimp only [] at h
        by_cases hm : dictMem c rp = true
        · rw [if_pos hm] at h
          simp at h
        · rw [if_neg hm] at h
          have hm' : dictMem c rp = false := by simpa using hm
          cases hfs : env.localFs lp with
          | none => rw [hfs] at h; simp at h
          | some content =>
            rw [hfs] at h
            dsimp only [] at h
            split at h
            · rename_i hsc
              split at h
              · rename_i hlen
                split at h
                · rename_i hsa
                  split at h
                  · rename_i hsf
                    simp only [UploadDict.ok.injEq] at h
                    refine ⟨?_, h.1 ▸ hm'⟩
                    unfold attemptSuccess
                    rw [hraise]
                    dsimp only []
                    rw [hp, hr]
                    dsimp only []
                    rw [hfs]
                    dsimp only []
                    rw [if_pos hsc, if_pos hlen, if_pos hsa, if_pos hsf]
                    rw [h.1, h.2.1]
                  · simp at h
                · simp at h
              · rename_i hlen
                simp only [UploadDict.ok.injEq] at h
                refine ⟨?_, h.1 ▸ hm'⟩
                unfold attemptSuccess
                rw [hraise]
                dsimp only []
                rw [hp, hr]
                dsimp only []
                rw [hfs]
                dsimp only []
                rw [if_pos hsc, if_neg hlen]
                rw [h.1, h.2.1]
            · simp at h

/-! ## Replay of already-checkpointed batches is a no-op on the completed map -/

theorem cRunBatch_noop (env : Env) (now i : Nat) (c : List (String × CompletionRecord))
    (batch : List FileInfo)
    (h : ∀ fi ∈ batch, ∀ k sz, attemptSuccess env fi = some (k, sz) → dictMem c k = true) :
    cRunBatch env now i c batch = c := by
  unfold cRunBatch upload_batch
  induction batch with
  | nil => rfl
  | cons fi rest ih =>
    simp only [List.map_cons, List.foldl_cons]
    have hstep : applyCompleted i now c (gatherItem env c fi) = c := by
      rcases hg : gatherItem env c fi with d | m
      · rcases d with ⟨pp, ss, sk⟩ | ⟨pp, e⟩
        · cases sk with
          | true => simp [applyCompleted]
          | false =>
            obtain ⟨ha, hm⟩ := gatherItem_ok_false_inv env c fi pp ss hg
            have hmem := h fi (List.mem_cons_self _ _) pp ss ha
            rw [hmem] at hm
            exact absurd hm (by simp)
        · simp [applyCompleted]
      · simp [applyCompleted]
    rw [hstep]
    exact ih (fun fi2 h2 k sz ha => h fi2 (List.mem_cons_of_mem _ h2) k sz ha)

theorem cRunBatch_success (env : Env) (now i : Nat) (c : List (String × CompletionRecord))
    (batch : List FileInfo) (fi : FileInfo) (k : String) (sz : Nat)
    (hfi : fi ∈ batch) (ha : attemptSuccess env fi = some (k, sz)) :
    dictMem (cRunBatch env now i c batch) k = true := by
  by_cases hm : dictMem c k = true
  · exact dictMem_cRunBatch_of_mem env now i c batch k hm
  · have hm' : dictMem c k = false := by simpa using hm
    have hg := gatherItem_of_attempt env c fi k sz hm' ha
    unfold cRunBatch upload_batch
    refine dictMem_foldl_of_ok_mem i now _ c k sz ?_
    rw [← hg]
    exact List.mem_map_of_mem _ hfi

theorem cFold_append (env : Env) (now bs : Nat) (files : List FileInfo)
    (c : List (String × CompletionRecord)) (l1 l2 : List Nat) :
    cFold env now bs files c (l1 ++ l2) = cFold env now bs files (cFold env now bs files c l1) l2 := by
  unfold cFold
  exact List.foldl_append _ _ l1 l2

theorem cFold_noop (env : Env) (now bs : Nat) (files : List FileInfo) (idxs : List Nat)
    (c : List (String × CompletionRecord))
    (h : ∀ i ∈ idxs, ∀ fi ∈ batchAt files bs i, ∀ k sz,
        attemptSuccess env fi = some (k, sz) → dictMem c k = true) :
    cFold env now bs files c idxs = c := by
  induction idxs with
  | nil => rfl
  | cons i is ih =>
    unfold cFold
    simp only [List.foldl_cons]
    have hstep : cBatchStep env now bs files c i = c :=
      cRunBatch_noop env now i c _ (h i (List.mem_cons_self _ _))
    rw [hstep]
    exact ih (fun j hj => h j (List.mem_cons_of_mem _ hj))

theorem cFold_success (env : Env) (now bs : Nat) (files : List FileInfo) (idxs : List Nat)
    (c : List (String × CompletionRecord)) (i : Nat) (fi : FileInfo) (k : String) (sz : Nat)
    (hi : i ∈ idxs) (hfi : fi ∈ batchAt files bs i)
    (ha : attemptSuccess env fi = some (k, sz)) :
    dictMem (cFold env now bs files c idxs) k = true := by
  induction idxs generalizing c with
  | nil => exact absurd hi (List.not_mem_nil _)
  | cons j js ih =>
    unfold cFold
    simp only [List.foldl_cons]
    rcases List.mem_cons.mp hi with h1 | h1
    · subst h1
      have hb : dictMem (cBatchStep env now bs files c i) k = true :=
        cRunBatch_success env now i c _ fi k sz hfi ha
      exact dictMem_cFold_of_mem env now bs files js _ k hb
    · exact ih _ h1

/-! ## Decomposition of the batch index range -/

theorem batchIndices_zero_some (n bs kk : Nat) :
    batchIndices n bs 0 (some kk) = List.range' 0 (min (totalBatches n bs) kk) := by
  unfold batchIndices
  simp

theorem batchIndices_zero_none (n bs : Nat) :
    batchIndices n bs 0 none = List.range' 0 (totalBatches n bs) := by
  unfold batchIndices
  simp

theorem range'_split (T m : Nat) (hm : m ≤ T) :
    List.range' 0 T = List.range' 0 m ++ List.range' m (T - m) := by
  have h := List.range'_append 0 m (T - m) 1
  simp only [Nat.one_mul, Nat.zero_add] at h
  rw [Nat.sub_add_cancel hm] at h
  exact h.symm

/-- Re-running `migrate_files` over the same cache with the progress produced
by an interrupted prefix of batches yields exactly the completed map of the
uninterrupted full run. -/
theorem resumed_completed_eq (env : Env) (files : List FileInfo) (bs now kk : Nat)
    (htok : env.tokenOk = true) (hne : files ≠ []) :
    (migrate_files env bs now
        (migrate_files env bs now freshProgress files 0 (some kk)).2.1 files 0 none).2.1.completed_files
      = (migrate_files env bs now freshProgress files 0 none).2.1.completed_files := by
  have hpre := migrate_completed env bs now freshProgress files 0 (some kk) htok hne
  have hres := migrate_completed env bs now
    (migrate_files env bs now freshProgress files 0 (some kk)).2.1 files 0 none htok hne
  have hfull := migrate_completed env bs now freshProgress files 0 none htok hne
  rw [hres, hfull, hpre]
  have hfresh : freshProgress.completed_files = [] := rfl
  rw [hfresh]
  rw [batchIndices_zero_some, batchIndices_zero_none]
  rw [range'_split (totalBatches files.length bs) (min (totalBatches files.length bs) kk)
    (Nat.min_le_left _ _)]
  rw [cFold_append, cFold_append]
  have hnoop : cFold env now bs files
      (cFold env now bs files [] (List.range' 0 (min (totalBatches files.length bs) kk)))
      (List.range' 0 (min (totalBatches files.length bs) kk))
    = cFold env now bs files [] (List.range' 0 (min (totalBatches files.length bs) kk)) := by
    apply cFold_noop
    intro i hi fi hfi k sz ha
    exact cFold_success env now bs files _ [] i fi k sz hi hfi ha
  rw [hnoop]

/-! ## Claim C1 -/

/-- C1: re-running `migrate_files` with the same cache and a progress store
loaded from a previous run is idempotent: (1) an item whose key is in
`completed_files` is answered by the resume check with a skipped result and
no HTTP request; (2) an item whose key is not in `completed_files` (in
particular one recorded only in `failed_files_list`) is never answered with
a skipped result, i.e. it is attempted again; (3) the final completed map of
a resumed run (after an interrupted prefix of `kk` batches) equals that of
an uninterrupted run. -/
theorem C1_idempotent_resume (env : Env) (files : List FileInfo) (bs now kk : Nat)
    (hbs : 0 < bs) (htok : env.tokenOk = true) (hne : files ≠ []) :
    (∀ (c : List (String × CompletionRecord)) (fi : FileInfo) (lp k : String),
        fi.path = some lp → fi.relative_path = some k → dictMem c k = true →
        upload_file_async env c fi = (.ok k fi.size_bytes true, [])) ∧
    (∀ (c : List (String × CompletionRecord)) (fi : FileInfo) (k : String),
        fi.relative_path = some k → dictMem c k = false →
        ∀ pp sz, (upload_file_async env c fi).1 ≠ .ok pp sz true) ∧
    (migrate_files env bs now
        (migrate_files env bs now freshProgress files 0 (some kk)).2.1 files 0 none).2.1.completed_files
      = (migrate_files env bs now freshProgress files 0 none).2.1.completed_files :=
  ⟨fun c fi lp k hp hr hm => upload_skip env c fi lp k hp hr hm,
   fun c fi k hr hm => upload_no_skip env c fi k hr hm,
   resumed_completed_eq env files bs now kk htok hne⟩

/-- Witness for C1 at a concrete healthy environment, two items, batch size 1
and a one-batch interrupted prefix. -/
theorem C1_witness :
    0 < 1 ∧ envOK.tokenOk = true ∧ [fiA, fiB] ≠ ([] : List FileInfo) ∧
    (migrate_files envOK 1 7
        (migrate_files envOK 1 7 freshProgress [fiA, fiB] 0 (some 1)).2.1
        [fiA, fiB] 0 none).2.1.completed_files
      = (migrate_files envOK 1 7 freshProgress [fiA, fiB] 0 none).2.1.completed_files :=
  ⟨Nat.one_pos, rfl, by decide,
   (C1_idempotent_resume envOK [fiA, fiB] 1 7 1 Nat.one_pos rfl (by decide)).2.2⟩

/-! ## Claim C2 -/

/-- C2 counterexample: when the progress file exists but holds malformed
JSON, the production `load_progress` (lines 79-94, no try/except) propagates
the `json.load` decoding error instead of returning the fresh empty store
the claim requires. -/
theorem C2_counterexample :
    load_progress (some (JsonFile.malformed ("Expecting value: line 1 column 1 (char 0)"))) =
      Except.error ("Expecting value: line 1 column 1 (char 0)") ∧
    load_progress (some (JsonFile.malformed ("Expecting value: line 1 column 1 (char 0)"))) ≠
      Except.ok freshProgress :=
  ⟨rfl, fun h => Except.noConfusion h⟩

/-- C2 (amended): the production `load_progress` returns the fresh empty
store only when the file is absent and raises on a malformed existing file,
while the turbo_fixed variant's `load_progress` never raises — absent and
malformed files both yield `init_progress`; a run starting from the fresh
store treats every key as pending (nothing is in `completed_files`). -/
theorem C2_amended :
    (load_progress none = Except.ok freshProgress) ∧
    (∀ e, load_progress (some (JsonFile.malformed e)) = Except.error e) ∧
    (tf_load_progress none = init_progress) ∧
    (∀ e, tf_load_progress (some (JsonFile.malformed e)) = init_progress) ∧
    (∀ p, tf_load_progress (some (JsonFile.valid p)) = p) ∧
    (∀ k, dictMem freshProgress.completed_files k = false) :=
  ⟨rfl, fun _ => rfl, rfl, fun _ => rfl, fun _ => rfl, fun _ => rfl⟩

/-! ## Claim C3 -/

/-- C3 counterexample: one item, uploaded successfully in run 1
(`completed = 1`, sum = total = 1).  Re-running with the loaded store
re-encounters the completed item, increments `skipped_files` again, and the
saved checkpoint of the resumed run has
`len(completed) + len(failed) + skipped = 2 > 1 = total`, violating the
claimed invariant precisely in the "across a resumed run" case it asserts. -/
theorem C3_counterexample :
    runTwiceP.total_files = 1 ∧
    runTwiceP.completed_files.length = 1 ∧
    runTwiceP.failed_files_list.length = 0 ∧
    runTwiceP.skipped_files = 1 ∧
    (migrate_files envOK 100 7 runOnceP [fiA] 0 none).2.2 = [runTwiceP] ∧
    ¬ (runTwiceP.completed_files.length + runTwiceP.failed_files_list.length +
        runTwiceP.skipped_files ≤ runTwiceP.total_files) := by decide

/-! ## Claim C4 -/

/-- C4 counterexample: in a batch of two where the task for `fiB` raises
"boom", the run continues and `fiA` completes, but the exception is only
counted (`failed_files = 1`) and logged — `failed_files_list` stays empty,
so no Failed record with `fiB`'s key, message or any `Unexpected` kind is
appended, contrary to the claim. -/
theorem C4_counterexample :
    c4Final.failed_files = 1 ∧
    c4Final.failed_files_list = [] ∧
    dictMem c4Final.completed_files ("docs/a.txt") = true ∧
    c4Final.uploaded_files = 1 := by decide

theorem applyResult_bumpFailed (i now : Nat) (q : Progress) (r : GatherResult) :
    applyResult i now { q with failed_files := q.failed_files + 1 } r =
      { applyResult i now q r with failed_files := (applyResult i now q r).failed_files + 1 } := by
  cases r with
  | dict d =>
    cases d with
    | ok path size skipped => cases skipped <;> rfl
    | err path e => rfl
  | exc m => rfl

theorem foldl_applyResult_bumpFailed (i now : Nat) (rs : List GatherResult) (q : Progress) :
    rs.foldl (applyResult i now) { q with failed_files := q.failed_files + 1 } =
      { rs.foldl (applyResult i now) q with
        failed_files := (rs.foldl (applyResult i now) q).failed_files + 1 } := by
  induction rs generalizing q with
  | nil => rfl
  | cons r rest ih =>
    simp only [List.foldl_cons]
    rw [applyResult_bumpFailed, ih]

/-- C4 (amended): if the task of one item of a batch raises, the batch is
processed exactly as the batch without that item — every sibling's result is
unchanged and the run is not aborted — except that `failed_files` is
incremented once; in particular nothing is appended to `failed_files_list`
for the raising item (the exception is only logged), and no error-kind
taxonomy is recorded. -/
theorem C4_amended (env : Env) (now i : Nat) (p : Progress) (b1 b2 : List FileInfo)
    (fx : FileInfo) (msg : String) (hx : env.raises fx = some msg) :
    runBatch env now i p (b1 ++ fx :: b2) =
      { runBatch env now i p (b1 ++ b2) with
        failed_files := (runBatch env now i p (b1 ++ b2)).failed_files + 1 } := by
  unfold runBatch upload_batch
  simp only [List.map_append, List.map_cons, List.foldl_append, List.foldl_cons]
  have hg : gatherItem env p.completed_files fx = .exc msg := by
    unfold gatherItem
    rw [hx]
  rw [hg]
  have hexc : ∀ q : Progress, applyResult i now q (.exc msg) =
      { q with failed_files := q.failed_files + 1 } := fun _ => rfl
  rw [hexc]
  exact foldl_applyResult_bumpFailed i now _ _

/-- Witness for C4 at the concrete raising environment. -/
theorem C4_witness :
    runBatch envRaise 7 0 freshProgress ([] ++ fiB :: [fiA]) =
      { runBatch envRaise 7 0 freshProgress ([] ++ [fiA]) with
        failed_files := (runBatch envRaise 7 0 freshProgress ([] ++ [fiA])).failed_files + 1 } :=
  C4_amended envRaise 7 0 freshProgress [] [fiA] fiB ("boom") (by decide)

/-! ## Claim C5 -/

/-- C5 counterexample: `save_progress` performs exactly one file operation —
a direct in-place write to `migration_progress_production.json` — and no
rename of a temporary file, so the write is not atomic in the claimed
temp-then-rename sense; moreover the production `save_progress` has no
exception handler, so a failing write raises out of it rather than being
logged. -/
theorem C5_counterexample :
    ((save_progress_ops freshProgress).any FsOp.isRename) = false ∧
    (save_progress_ops freshProgress).length = 1 ∧
    ((save_progress_ops freshProgress).any (FsOp.isWriteTo PROGRESS_FILE)) = true ∧
    save_progress_production (some ("disk full")) = PyOutcome.exn ("disk full") := by decide

/-- C5 (amended): every save writes the serialized store directly to the
target path in a single write — no temporary file, no rename — so a process
killed mid-write can leave a truncated progress file; the auto_refresh
variant catches and logs save failures (it never raises), while the
production variant propagates them. -/
theorem C5_amended :
    (∀ p, save_progress_ops p = [FsOp.write PROGRESS_FILE (serializeProgress p)]) ∧
    (∀ p, ((save_progress_ops p).any FsOp.isRename) = false) ∧
    (∀ e, (save_progress_auto_refresh e).1 = PyOutcome.ret ()) ∧
    (∀ e, save_progress_production (some e) = PyOutcome.exn e) ∧
    (save_progress_production none = PyOutcome.ret ()) :=
  ⟨fun _ => rfl, fun _ => rfl, fun e => by cases e <;> rfl, fun _ => rfl, rfl⟩

/-! ## Claim C6 -/

/-- C6 counterexample: with items a..e, batch size 2 and a loaded store in
which "a" is completed, the run slices the ORIGINAL list into
`[[a,b],[c,d],[e]]` (the completed item stays inside batch 1 and is skipped
at item level), not the claimed partition `[[b,c],[d,e]]` of the pending
list. -/
theorem C6_counterexample :
    migrateBatches itemsC6 2 0 none = [[fv ("a"), fv ("b")], [fv ("c"), fv ("d")], [fv ("e")]] ∧
    specPendingBatches itemsC6 completedA 2 = [[fv ("b"), fv ("c")], [fv ("d"), fv ("e")]] ∧
    migrateBatches itemsC6 2 0 none ≠ specPendingBatches itemsC6 completedA 2 := by decide

theorem batchAt_length (files : List FileInfo) (bs i : Nat) :
    (batchAt files bs i).length = min bs (files.length - i * bs) := by
  unfold batchAt
  rw [List.length_take, List.length_drop]

theorem joinBatches (files : List FileInfo) (bs : Nat) :
    ∀ (a s : Nat), ((List.range' s a).map (batchAt files bs)).flatten =
      (files.drop (s * bs)).take (a * bs) := by
  intro a
  induction a with
  | zero => intro s; simp
  | succ m ih =>
    intro s
    rw [List.range'_succ, List.map_cons, List.flatten_cons, ih (s + 1)]
    have h1 : (m + 1) * bs = bs + m * bs := by ring
    rw [h1, List.take_add]
    congr 1
    rw [List.drop_drop]
    congr 1
    ring

theorem ceil_mul_ge (n bs : Nat) (hbs : 0 < bs) : n ≤ totalBatches n bs * bs := by
  unfold totalBatches
  rw [Nat.mul_comm]
  have key : ∀ M r2 : Nat, M + r2 = n + bs - 1 → r2 < bs → n ≤ M := by
    intro M r2 e hlt
    omega
  exact key _ _ (Nat.div_add_mod (n + bs - 1) bs) (Nat.mod_lt _ hbs)

theorem batch_length_full (files : List FileInfo) (bs i : Nat) (hbs : 0 < bs)
    (hi : i + 1 < totalBatches files.length bs) :
    (batchAt files bs i).length = bs := by
  rw [batchAt_length]
  have e2 : totalBatches files.length bs * bs ≤ files.length + bs - 1 := by
    unfold totalBatches
    exact Nat.div_mul_le_self _ _
  have e1 : (i + 2) * bs ≤ totalBatches files.length bs * bs :=
    Nat.mul_le_mul_right bs (by omega)
  have e3 : (i + 2) * bs = i * bs + 2 * bs := by ring
  have key : ∀ M1 M2 : Nat, M1 + 2 * bs ≤ M2 → M2 ≤ files.length + bs - 1 →
      min bs (files.length - M1) = bs := by
    intro M1 M2 ha hb
    omega
  exact key (i * bs) (totalBatches files.length bs * bs) (by omega) e2

theorem batch_nonempty (files : List FileInfo) (bs i : Nat) (hbs : 0 < bs)
    (hi : i < totalBatches files.length bs) :
    0 < (batchAt files bs i).length ∧ (batchAt files bs i).length ≤ bs := by
  rw [batchAt_length]
  have e2 : totalBatches files.length bs * bs ≤ files.length + bs - 1 := by
    unfold totalBatches
    exact Nat.div_mul_le_self _ _
  have e1 : (i + 1) * bs ≤ totalBatches files.length bs * bs :=
    Nat.mul_le_mul_right bs (by omega)
  have e3 : (i + 1) * bs = i * bs + bs := by ring
  have key : ∀ M1 M2 : Nat, M1 + bs ≤ M2 → M2 ≤ files.length + bs - 1 → 0 < bs →
      0 < min bs (files.length - M1) ∧ min bs (files.length - M1) ≤ bs := by
    intro M1 M2 ha hb hc
    omega
  exact key (i * bs) (totalBatches files.length bs * bs) (by omega) e2 hbs

/-- C6 (amended): the run partitions the ORIGINAL cache list (not the
pending list — completed items stay in their positional batch and are
skipped inside `upload_file_async`) into consecutive batches: their
concatenation in order is exactly the list, there are
`ceil(len(files)/bs)` of them, every batch except possibly the last has
exactly `bs` items, and every batch is non-empty with at most `bs` items;
e.g. 5 items with `bs = 2` give batches of sizes 2, 2, 1. -/
theorem C6_amended (files : List FileInfo) (bs : Nat) (hbs : 0 < bs) :
    ((migrateBatches files bs 0 none).flatten = files) ∧
    ((migrateBatches files bs 0 none).length = totalBatches files.length bs) ∧
    (∀ i, i + 1 < totalBatches files.length bs → (batchAt files bs i).length = bs) ∧
    (∀ i, i < totalBatches files.length bs →
        0 < (batchAt files bs i).length ∧ (batchAt files bs i).length ≤ bs) := by
  refine ⟨?_, ?_, fun i hi => batch_length_full files bs i hbs hi,
    fun i hi => batch_nonempty files bs i hbs hi⟩
  · unfold migrateBatches
    rw [batchIndices_zero_none, joinBatches files bs _ 0]
    simp only [Nat.zero_mul, List.drop_zero]
    exact List.take_of_length_le (ceil_mul_ge files.length bs hbs)
  · unfold migrateBatches
    rw [batchIndices_zero_none, List.length_map, List.length_range']

/-- Witness for C6 at the 5-item, batch-size-2 example of the claim. -/
theorem C6_witness :
    0 < 2 ∧ (migrateBatches itemsC6 2 0 none).flatten = itemsC6 ∧
    (migrateBatches itemsC6 2 0 none).length = totalBatches itemsC6.length 2 :=
  ⟨by decide, (C6_amended itemsC6 2 (by decide)).1, (C6_amended itemsC6 2 (by decide)).2.1⟩

/-! ## Claim C7 -/

/-- C7 counterexample: the dashboard_monitor classifier has an extra
`"permission"/"access"` check between the connection and rate-limit checks,
so on input "permission denied" it returns "Permission" — a kind outside the
claimed closed set {authentication, not-found, timeout, connection,
rate-limit, server-error, Other} — and its check order is not the claimed
fixed order. -/
theorem C7_counterexample :
    classify_error_dashboard ("permission denied") = ("Permission") ∧
    ("Permission") ∉ [("Authentication"), ("File Not Found"), ("Timeout"), ("Connection"),
      ("Rate Limit"), ("Server Error"), ("Other")] := by decide

/-- C7 (amended): the log_analyzer classifier checks exactly the claimed
fixed priority order and only ever returns one of the seven claimed kinds;
the dashboard_monitor variant returns one of those seven or the additional
"Permission" kind (checked between connection and rate-limit); in both, any
error string containing "401" — in particular one containing both "401" and
"timeout" — classifies as Authentication because the authentication check
comes first. -/
theorem C7_amended :
    (∀ s, classify_error s ∈ [("Authentication"), ("File Not Found"), ("Timeout"),
        ("Connection"), ("Rate Limit"), ("Server Error"), ("Other")]) ∧
    (∀ s, classify_error_dashboard s ∈ [("Authentication"), ("File Not Found"), ("Timeout"),
        ("Connection"), ("Permission"), ("Rate Limit"), ("Server Error"), ("Other")]) ∧
    (∀ s, strContains s ("401") = true →
        classify_error s = ("Authentication") ∧
        classify_error_dashboard s = ("Authentication")) := by
  refine ⟨fun s => ?_, fun s => ?_, fun s h => ⟨?_, ?_⟩⟩
  · unfold classify_error
    dsimp only []
    repeat' split
    all_goals simp
  · unfold classify_error_dashboard
    dsimp only []
    repeat' split
    all_goals simp
  · unfold classify_error
    dsimp only []
    rw [if_pos (show (strContains s ("401") || strContains (toLowerStr s) ("unauthorized")) = true by
      rw [h]; rfl)]
  · unfold classify_error_dashboard
    dsimp only []
    rw [if_pos (show (strContains s ("401") || strContains (toLowerStr s) ("unauthorized")) = true by
      rw [h]; rfl)]

/-- Witness for C7 on the claim's own example: a string containing both
"401" and "timeout". -/
theorem C7_witness :
    classify_error ("HTTP 401 timeout") = ("Authentication") ∧
    classify_error_dashboard ("HTTP 401 timeout") = ("Authentication") :=
  C7_amended.2.2 ("HTTP 401 timeout") (by decide)

/-! ## Claim C8 -/

/-- C8 counterexample: with a server returning 500 for every request, the
single item fails and remains in `failed_files_list`, yet `main` (which
never calls `sys.exit`) ends with process exit status 0 — and even logs
success, because `migrate_files` returns True whenever the token loads and
the cache is non-empty, regardless of failures. -/
theorem C8_counterexample :
    (main_run env500 100 7 freshProgress [fiA]
        { start_batch := 0, max_batches := none, test_run := false }).1 = 0 ∧
    (main_run env500 100 7 freshProgress [fiA]
        { start_batch := 0, max_batches := none, test_run := false }).2 = true ∧
    (migrate_files env500 100 7 freshProgress [fiA] 0 none).2.1.failed_files_list.length = 1 := by
  decide

/-- C8 (amended): the CLI entry point exits with status 0 on every
non-raising path — full completion, remaining failures, missing token and
empty cache alike; the boolean outcome of `migrate_files` is only logged. -/
theorem C8_amended (env : Env) (bs now : Nat) (p0 : Progress) (files : List FileInfo)
    (args : Args) : (main_run env bs now p0 files args).1 = 0 := rfl

/-! ## Claim C9 -/

/-- C9 counterexample: `download_all_files_turbo` ends a run that finished
with zero failures by unlinking the progress file itself (lines 486-489):
with the file present and an empty failed list the cleanup deletes it, so
the progress file does NOT still exist afterwards. -/
theorem C9_counterexample :
    turbo_cleanup true 0 = (false, true) ∧ (turbo_cleanup true 0).1 = false := by decide

/-- C9 (amended): the production OneLake migrator itself never deletes the
progress file (its only file operation is the in-place save write), but the
SharePoint turbo downloader is not operator-only: its end-of-run cleanup
unlinks the progress file exactly when the run finished with zero failures,
keeping it when failures remain; `clear_cache` (an explicit operator action)
also removes it. -/
theorem C9_amended :
    (∀ p, ((save_progress_ops p).any FsOp.isDelete) = false) ∧
    (∀ fc, turbo_cleanup true (fc + 1) = (true, false)) ∧
    (turbo_cleanup true 0 = (false, true)) ∧
    (turbo_cleanup false 0 = (false, false)) ∧
    (∀ cp pp, (clear_cache cp pp).1 = (false, false)) :=
  ⟨fun _ => rfl, fun _ => rfl, rfl, rfl, fun _ _ => rfl⟩

/-! ## Claim C10 -/

/-- C10: for a pending item whose local file exists and is empty (0 bytes),
and whose Create request is accepted, the upload issues ONLY the Create
request — no Append, no Flush — and returns a success result of size 0,
whose application to the progress records the key in `completed_files` with
size 0; conversely, for any pending item whose local file is non-empty and
whose Create request is accepted, the Append request IS issued (and the
Flush request follows when the Append is accepted). -/
theorem C10_empty_file_upload (env : Env) (c : List (String × CompletionRecord)) (fi : FileInfo)
    (lp k : String) (hp : fi.path = some lp) (hr : fi.relative_path = some k)
    (hm : dictMem c k = false) (hfs : env.localFs lp = some ([] : List Nat))
    (hcr : env.status (Request.create (build_onelake_url k ++ ("?resource=file"))) = 200 ∨
           env.status (Request.create (build_onelake_url k ++ ("?resource=file"))) = 201) :
    (upload_file_async env c fi =
      (.ok k 0 false, [Request.create (build_onelake_url k ++ ("?resource=file"))])) ∧
    (∀ (p : Progress) (bi now : Nat),
        (applyResult bi now p (.dict (.ok k 0 false))).completed_files =
          dictInsert p.completed_files k
            { status := ("completed"), size := 0, timestamp := now, batch := bi + 1 }) ∧
    (∀ (env2 : Env) (c2 : List (String × CompletionRecord)) (fi2 : FileInfo) (lp2 k2 : String)
        (content : List Nat),
        fi2.path = some lp2 → fi2.relative_path = some k2 → dictMem c2 k2 = false →
        env2.localFs lp2 = some content → 0 < content.length →
        (env2.status (Request.create (build_onelake_url k2 ++ ("?resource=file"))) = 200 ∨
         env2.status (Request.create (build_onelake_url k2 ++ ("?resource=file"))) = 201) →
        (Request.append (build_onelake_url k2 ++ ("?action=append&position=0")) content ∈
            (upload_file_async env2 c2 fi2).2) ∧
        ((env2.status (Request.append (build_onelake_url k2 ++ ("?action=append&position=0"))
              content) = 200 ∨
          env2.status (Request.append (build_onelake_url k2 ++ ("?action=append&position=0"))
              content) = 202) →
          Request.flush (build_onelake_url k2 ++ ("?action=flush&position=") ++
              toString content.length) ∈ (upload_file_async env2 c2 fi2).2)) := by
  refine ⟨?_, fun p bi now => rfl, ?_⟩
  · unfold upload_file_async
    rw [hp, hr]
    dsimp only []
    rw [if_neg (show ¬ dictMem c k = true by simp [hm])]
    rw [hfs]
    dsimp only [List.length_nil]
    rw [if_pos hcr]
    rw [if_neg (show ¬ ((0 : Nat) > 0) by decide)]
  · intro env2 c2 fi2 lp2 k2 content hp2 hr2 hm2 hfs2 hpos hcr2
    unfold upload_file_async
    rw [hp2, hr2]
    dsimp only []
    rw [if_neg (show ¬ dictMem c2 k2 = true by simp [hm2])]
    rw [hfs2]
    dsimp only []
    rw [if_pos hcr2, if_pos hpos]
    constructor
    · split
      · split <;> simp
      · simp
    · intro hap
      rw [if_pos hap]
      split <;> simp

/-- Witness for C10 at the empty file `fiB` in the healthy environment. -/
theorem C10_witness :
    upload_file_async envOK [] fiB =
      (.ok ("docs/b.txt") 0 false,
       [Request.create (build_onelake_url ("docs/b.txt") ++ ("?resource=file"))]) :=
  (C10_empty_file_upload envOK [] fiB ("local/b.txt") ("docs/b.txt") rfl rfl rfl (by decide)
    (Or.inr rfl)).1

/-! ## Accounting for the conservation invariant (C3) -/

theorem dictMem_dictInsert_false (c : List (String × CompletionRecord)) (k k2 : String)
    (v : CompletionRecord) (hne : k2 ≠ k) (h : dictMem c k2 = false) :
    dictMem (dictInsert c k v) k2 = false := by
  cases hb : dictMem (dictInsert c k v) k2 with
  | false => rfl
  | true =>
    rcases dictMem_dictInsert_inv c k k2 v hb with h1 | h1
    · exact absurd h1 hne
    · rw [h1] at h
      exact absurd h (by simp)

theorem upload_missing (env : Env) (c : List (String × CompletionRecord)) (fi : FileInfo)
    (h : fi.path = none ∨ fi.relative_path = none) :
    (upload_file_async env c fi).1 = .err fi.relative_path ("Missing path information") := by
  unfold upload_file_async
  rcases h with h | h
  · rw [h]
  · rw [h]
    cases hp : fi.path <;> rfl

theorem someKeys_cons_some (fi : FileInfo) (rest : List FileInfo) (k : String)
    (hr : fi.relative_path = some k) : someKeys (fi :: rest) = k :: someKeys rest := by
  simp [someKeys, List.filterMap_cons, hr]

theorem someKeys_cons_none (fi : FileInfo) (rest : List FileInfo)
    (hr : fi.relative_path = none) : someKeys (fi :: rest) = someKeys rest := by
  simp [someKeys, List.filterMap_cons, hr]

theorem someKeys_mem_cons (fi : FileInfo) (rest : List FileInfo) (k : String)
    (h : k ∈ someKeys rest) : k ∈ someKeys (fi :: rest) := by
  cases hrel : fi.relative_path with
  | none => rw [someKeys_cons_none fi rest hrel]; exact h
  | some k2 => rw [someKeys_cons_some fi rest k2 hrel]; exact List.mem_cons_of_mem _ h

theorem someKeys_nodup_tail (fi : FileInfo) (rest : List FileInfo)
    (h : (someKeys (fi :: rest)).Nodup) : (someKeys rest).Nodup := by
  cases hrel : fi.relative_path with
  | none => rw [someKeys_cons_none fi rest hrel] at h; exact h
  | some k2 => rw [someKeys_cons_some fi rest k2 hrel] at h; exact (List.nodup_cons.mp h).2

theorem step_err (i now : Nat) (q : Progress) (pp : Option String) (e : String) :
    progressSum (applyResult i now q (.dict (.err pp e))) = progressSum q + 1 ∧
    (applyResult i now q (.dict (.err pp e))).completed_files = q.completed_files ∧
    (applyResult i now q (.dict (.err pp e))).total_files = q.total_files := by
  refine ⟨?_, rfl, rfl⟩
  dsimp [applyResult, progressSum]
  rw [List.length_append]
  simp
  omega

theorem step_ok_new (i now : Nat) (q : Progress) (k : String) (sz : Nat)
    (hm : dictMem q.completed_files k = false) :
    progressSum (applyResult i now q (.dict (.ok k sz false))) = progressSum q + 1 ∧
    (applyResult i now q (.dict (.ok k sz false))).completed_files =
      dictInsert q.completed_files k
        { status := ("completed"), size := sz, timestamp := now, batch := i + 1 } ∧
    (applyResult i now q (.dict (.ok k sz false))).total_files = q.total_files := by
  refine ⟨?_, rfl, rfl⟩
  dsimp [applyResult, progressSum]
  rw [length_dictInsert_not_mem _ _ _ hm]
  omega

theorem batch_accounting (env : Env) (i now : Nat) (c0 : List (String × CompletionRecord)) :
    ∀ (todo : List FileInfo) (q : Progress),
    (∀ fi ∈ todo, env.raises fi = none) →
    ((someKeys todo).Nodup) →
    (∀ k, k ∈ someKeys todo → dictMem c0 k = false ∧ dictMem q.completed_files k = false) →
    progressSum ((todo.map (gatherItem env c0)).foldl (applyResult i now) q)
        = progressSum q + todo.length ∧
    (∀ k, dictMem ((todo.map (gatherItem env c0)).foldl (applyResult i now) q).completed_files k
          = true →
        dictMem q.completed_files k = true ∨ k ∈ someKeys todo) ∧
    ((todo.map (gatherItem env c0)).foldl (applyResult i now) q).total_files = q.total_files := by
  intro todo
  induction todo with
  | nil =>
    intro q h1 h2 h3
    exact ⟨rfl, fun k hk => Or.inl hk, rfl⟩
  | cons fi rest ih =>
    intro q h1 h2 h3
    have hraise : env.raises fi = none := h1 fi (List.mem_cons_self _ _)
    have hg : gatherItem env c0 fi = .dict ((upload_file_async env c0 fi).1) := by
      unfold gatherItem
      rw [hraise]
    have hshape : (∃ pp e, (upload_file_async env c0 fi).1 = .err pp e) ∨
        (∃ k sz, fi.relative_path = some k ∧ (upload_file_async env c0 fi).1 = .ok k sz false ∧
          dictMem q.completed_files k = false ∧ k ∈ someKeys (fi :: rest)) := by
      cases hp : fi.path with
      | none => exact Or.inl ⟨_, _, upload_missing env c0 fi (Or.inl hp)⟩
      | some lp =>
        cases hrel : fi.relative_path with
        | none => exact Or.inl ⟨_, _, upload_missing env c0 fi (Or.inr hrel)⟩
        | some k =>
          have hk : k ∈ someKeys (fi :: rest) := by
            rw [someKeys_cons_some fi rest k hrel]
            exact List.mem_cons_self _ _
          have hm0 : dictMem c0 k = false := (h3 k hk).1
          cases hA : attemptSuccess env fi with
          | none =>
            obtain ⟨e, hup⟩ := upload_err_of_attempt_none env c0 fi lp k hp hrel hm0 hraise hA
            exact Or.inl ⟨_, _, hup⟩
          | some pair =>
            obtain ⟨k2, sz⟩ := pair
            obtain ⟨_, hr2, _⟩ := attemptSuccess_some_inv env fi k2 sz hA
            have hkk : k2 = k := by
              rw [hrel] at hr2
              exact (Option.some.inj hr2).symm
            subst hkk
            exact Or.inr ⟨k2, sz, rfl, upload_of_attempt env c0 fi k2 sz hm0 hA,
              (h3 k2 hk).2, hk⟩
    simp only [List.map_cons, List.foldl_cons]
    rw [hg]
    rcases hshape with ⟨pp, e, hup⟩ | ⟨k, sz, hrel, hup, hmq, hk⟩
    · rw [hup]
      obtain ⟨sA, sB, sC⟩ := step_err i now q pp e
      obtain ⟨ihA, ihB, ihC⟩ := ih (applyResult i now q (.dict (.err pp e)))
        (fun fi2 h => h1 fi2 (List.mem_cons_of_mem _ h))
        (someKeys_nodup_tail fi rest h2)
        (fun k2 hk2 => ⟨(h3 k2 (someKeys_mem_cons fi rest k2 hk2)).1,
          by rw [sB]; exact (h3 k2 (someKeys_mem_cons fi rest k2 hk2)).2⟩)
      refine ⟨?_, ?_, ?_⟩
      · rw [ihA, sA, List.length_cons]
        omega
      · intro k2 hk2
        rcases ihB k2 hk2 with hx | hx
        · rw [sB] at hx
          exact Or.inl hx
        · exact Or.inr (someKeys_mem_cons fi rest k2 hx)
      · rw [ihC, sC]
    · rw [hup]
      obtain ⟨sA, sB, sC⟩ := step_ok_new i now q k sz hmq
      have hnotk : k ∉ someKeys rest := by
        rw [someKeys_cons_some fi rest k hrel] at h2
        exact (List.nodup_cons.mp h2).1
      obtain ⟨ihA, ihB, ihC⟩ := ih (applyResult i now q (.dict (.ok k sz false)))
        (fun fi2 h => h1 fi2 (List.mem_cons_of_mem _ h))
        (someKeys_nodup_tail fi rest h2)
        (fun k2 hk2 => by
          have hmem := someKeys_mem_cons fi rest k2 hk2
          refine ⟨(h3 k2 hmem).1, ?_⟩
          rw [sB]
          exact dictMem_dictInsert_false q.completed_files k k2 _
            (fun he => hnotk (he ▸ hk2)) (h3 k2 hmem).2)
      refine ⟨?_, ?_, ?_⟩
      · rw [ihA, sA, List.length_cons]
        omega
      · intro k2 hk2
        rcases ihB k2 hk2 with hx | hx
        · rw [sB] at hx
          rcases dictMem_dictInsert_inv q.completed_files k k2 _ hx with he | he
          · exact Or.inr (he ▸ hk)
          · exact Or.inl he
        · exact Or.inr (someKeys_mem_cons fi rest k2 hx)
      · rw [ihC, sC]

theorem batchStep_invariant (env : Env) (bs now : Nat) (files : List FileInfo)
    (hnd : (someKeys files).Nodup) (hraise : ∀ fi ∈ files, env.raises fi = none)
    (j : Nat) (p : Progress)
    (hsum : progressSum p = (files.take (j * bs)).length)
    (hkeys : ∀ k, dictMem p.completed_files k = true → k ∈ someKeys (files.take (j * bs)))
    (htot : p.total_files = files.length) :
    progressSum (batchStep env now bs files p j) = (files.take ((j + 1) * bs)).length ∧
    (∀ k, dictMem (batchStep env now bs files p j).completed_files k = true →
        k ∈ someKeys (files.take ((j + 1) * bs))) ∧
    (batchStep env now bs files p j).total_files = files.length := by
  have hsplit : files.take ((j + 1) * bs) = files.take (j * bs) ++ batchAt files bs j := by
    have h1 : (j + 1) * bs = j * bs + bs := by ring
    rw [h1, List.take_add]
    rfl
  have hnd2 : (someKeys (files.take ((j + 1) * bs))).Nodup := by
    have hsub : (someKeys (files.take ((j + 1) * bs))).Sublist (someKeys files) :=
      List.Sublist.filterMap _ (List.take_sublist _ _)
    exact hnd.sublist hsub
  have happkeys : someKeys (files.take (j * bs) ++ batchAt files bs j)
      = someKeys (files.take (j * bs)) ++ someKeys (batchAt files bs j) := by
    unfold someKeys
    exact List.filterMap_append _ _ _
  rw [hsplit, happkeys] at hnd2
  obtain ⟨hnd_pre, hnd_batch, hdisj⟩ := List.nodup_append.mp hnd2
  have hbatchsub : (batchAt files bs j).Sublist files :=
    (List.take_sublist _ _).trans (List.drop_sublist _ _)
  have hraise2 : ∀ fi ∈ batchAt files bs j, env.raises fi = none :=
    fun fi h => hraise fi (hbatchsub.subset h)
  have h3 : ∀ k, k ∈ someKeys (batchAt files bs j) →
      dictMem p.completed_files k = false ∧
      dictMem ({ p with current_batch := j + 1 } : Progress).completed_files k = false := by
    intro k hk
    have hfalse : dictMem p.completed_files k = false := by
      cases hb : dictMem p.completed_files k with
      | false => rfl
      | true =>
        have hmem := hkeys k hb
        exact absurd hk (hdisj hmem)
    exact ⟨hfalse, hfalse⟩
  obtain ⟨accA, accB, accC⟩ := batch_accounting env j now p.completed_files (batchAt files bs j)
    { p with current_batch := j + 1 } hraise2 hnd_batch h3
  unfold batchStep runBatch upload_batch
  refine ⟨?_, ?_, ?_⟩
  · show progressSum ((List.map (gatherItem env
        ({ p with current_batch := j + 1 } : Progress).completed_files) (batchAt files bs j)).foldl
          (applyResult j now) { p with current_batch := j + 1 }) =
      (files.take ((j + 1) * bs)).length
    rw [accA]
    rw [hsplit, List.length_append]
    have hps : progressSum ({ p with current_batch := j + 1 } : Progress) = progressSum p := rfl
    rw [hps, hsum]
  · intro k hk
    have hk2 := accB k hk
    rw [hsplit, happkeys]
    rcases hk2 with hx | hx
    · exact List.mem_append_left _ (hkeys k hx)
    · exact List.mem_append_right _ hx
  · show ((List.map (gatherItem env
        ({ p with current_batch := j + 1 } : Progress).completed_files) (batchAt files bs j)).foldl
          (applyResult j now) { p with current_batch := j + 1 }).total_files = files.length
    rw [accC]
    exact htot

theorem migrate_run_invariant (env : Env) (bs now : Nat) (files : List FileInfo)
    (hnd : (someKeys files).Nodup) (hraise : ∀ fi ∈ files, env.raises fi = none) :
    ∀ (a s : Nat) (p : Progress) (acc : List Progress),
    progressSum p = (files.take (s * bs)).length →
    (∀ k, dictMem p.completed_files k = true → k ∈ someKeys (files.take (s * bs))) →
    p.total_files = files.length →
    (∀ q ∈ acc, progressSum q ≤ files.length ∧ q.total_files = files.length) →
    progressSum ((List.range' s a).foldl (fun (st : Progress × List Progress) i =>
        let q := batchStep env now bs files st.1 i
        (q, st.2 ++ [q])) (p, acc)).1 = (files.take ((s + a) * bs)).length ∧
    (((List.range' s a).foldl (fun (st : Progress × List Progress) i =>
        let q := batchStep env now bs files st.1 i
        (q, st.2 ++ [q])) (p, acc)).1).total_files = files.length ∧
    (∀ q ∈ ((List.range' s a).foldl (fun (st : Progress × List Progress) i =>
        let q := batchStep env now bs files st.1 i
        (q, st.2 ++ [q])) (p, acc)).2,
      progressSum q ≤ files.length ∧ q.total_files = files.length) := by
  intro a
  induction a with
  | zero =>
    intro s p acc h1 h2 h3 h4
    exact ⟨by simpa using h1, h3, h4⟩
  | succ m ih =>
    intro s p acc h1 h2 h3 h4
    rw [List.range'_succ]
    simp only [List.foldl_cons]
    obtain ⟨bA, bB, bC⟩ := batchStep_invariant env bs now files hnd hraise s p h1 h2 h3
    have hcp : progressSum (batchStep env now bs files p s) ≤ files.length := by
      rw [bA, List.length_take]
      exact Nat.min_le_right _ _
    have hstep := ih (s + 1) (batchStep env now bs files p s)
      (acc ++ [batchStep env now bs files p s]) bA bB bC
      (by
        intro q hq
        rcases List.mem_append.mp hq with h | h
        · exact h4 q h
        · rw [List.mem_singleton] at h
          subst h
          exact ⟨hcp, bC⟩)
    have harith : s + (m + 1) = (s + 1) + m := by ring
    rw [harith]
    exact hstep

/-- C3 (amended): the conservation invariant holds WITHIN a single run
started from a fresh store, under the conditions the engine tacitly assumes
(unique keys, no task-level exceptions): at every saved checkpoint
`len(completed) + len(failed) + skipped ≤ total`, and the sum equals `total`
when the run has processed all batches.  Across a resumed run the invariant
fails (see the counterexample): re-encountered completed items increment
`skipped` again and retried failures append again, so the sum can exceed
`total`. -/
theorem C3_amended (env : Env) (files : List FileInfo) (bs now : Nat)
    (hbs : 0 < bs) (htok : env.tokenOk = true) (hne : files ≠ [])
    (hnd : (someKeys files).Nodup) (hraise : ∀ fi ∈ files, env.raises fi = none) :
    (∀ cp ∈ (migrate_files env bs now freshProgress files 0 none).2.2,
        cp.completed_files.length + cp.failed_files_list.length + cp.skipped_files ≤
          cp.total_files) ∧
    ((migrate_files env bs now freshProgress files 0 none).2.1.completed_files.length +
       (migrate_files env bs now freshProgress files 0 none).2.1.failed_files_list.length +
       (migrate_files env bs now freshProgress files 0 none).2.1.skipped_files =
     (migrate_files env bs now freshProgress files 0 none).2.1.total_files) := by
  unfold migrate_files
  rw [htok]
  simp only [Bool.true_eq_false, if_false, List.isEmpty_eq_true]
  rw [if_neg hne]
  rw [batchIndices_zero_none]
  obtain ⟨fA, fB, fC⟩ := migrate_run_invariant env bs now files hnd hraise
    (totalBatches files.length bs) 0
    ({ freshProgress with total_files := files.length, start_time := some now }) []
    (by simp [progressSum, freshProgress])
    (by
      intro k hk
      exact absurd hk (by simp [freshProgress, dictMem]))
    rfl
    (by
      intro q hq
      exact absurd hq (List.not_mem_nil _))
  constructor
  · intro cp hcp
    have := fC cp hcp
    exact le_trans (le_of_eq rfl) (by rw [← this.2] at this ⊢; exact this.1)
  · have htake : files.take (totalBatches files.length bs * bs) = files :=
      List.take_of_length_le (ceil_mul_ge files.length bs hbs)
    rw [Nat.zero_add] at fA
    show progressSum ((List.range' 0 (totalBatches files.length bs)).foldl
        (fun (st : Progress × List Progress) i =>
          let q := batchStep env now bs files st.1 i
          (q, st.2 ++ [q]))
        ({ freshProgress with total_files := files.length, start_time := some now }, [])).1 =
      ((List.range' 0 (totalBatches files.length bs)).foldl
        (fun (st : Progress × List Progress) i =>
          let q := batchStep env now bs files st.1 i
          (q, st.2 ++ [q]))
        ({ freshProgress with total_files := files.length, start_time := some now }, [])).1.total_files
    rw [fA, fB, htake]

/-- Witness for C3 (amended) on a healthy two-item run with batch size 2. -/
theorem C3_witness :
    0 < 2 ∧ envOK.tokenOk = true ∧ ([fiA, fiB] ≠ ([] : List FileInfo)) ∧
    (someKeys [fiA, fiB]).Nodup ∧ (∀ fi ∈ [fiA, fiB], envOK.raises fi = none) ∧
    ((migrate_files envOK 2 7 freshProgress [fiA, fiB] 0 none).2.1.completed_files.length +
       (migrate_files envOK 2 7 freshProgress [fiA, fiB] 0 none).2.1.failed_files_list.length +
       (migrate_files envOK 2 7 freshProgress [fiA, fiB] 0 none).2.1.skipped_files =
     (migrate_files envOK 2 7 freshProgress [fiA, fiB] 0 none).2.1.total_files) :=
  ⟨by decide, rfl, by decide, by decide, by decide,
   (C3_amended envOK [fiA, fiB] 2 7 (by decide) rfl (by decide) (by decide) (by decide)).2⟩
